import Mathlib

/-!
Verification of the GeoGenie backend's similarity-search engine
(`scripts/search_image.py`, class `ImageSearch`) and of the GPS-resolution
step of the `/recognize` endpoint (`main.py` / `backend/main.py`,
`recognize_landmark`).

Modelling conventions:
* Python floats are modelled as exact rationals (`ℚ`); embeddings are
  `List ℚ`.
* The FAISS `IndexFlatL2` collaborator is modelled by its exact semantics:
  it stores vectors in insertion order, `ntotal` is the number of stored
  vectors, `add` appends, and `search(q, k)` returns the `k` nearest stored
  vectors by squared Euclidean distance, in ascending distance order with
  ties broken by ascending insertion ordinal, and rejects a query whose
  dimension differs from the index dimension (512).
* Mutation of the `ImageSearch` object is modelled by explicit state
  passing: `add_landmark` returns the error raised (if any) together with
  the state after the call.  The Python `raise` in `add_landmark` happens
  before any mutation, so the state after an error is the input state.
* Persistence (`_save_database`) is modelled by a snapshot field
  `persisted` holding the last pair written to disk, plus a counter
  `saves` of how many write calls have been made.
-/

namespace GeoGenie

/-- An embedding vector (Python: 1-d `np.ndarray` of floats). -/
abbrev Vec := List ℚ

/-- `self.dimension = 512  # CLIP ViT-B/32 embedding dimension`. -/
def dimension : ℕ := 512

/-- One metadata entry, the dict
`{"place_name": ..., "image_path": ..., "index": self.index.ntotal - 1}`
appended by `add_landmark`. -/
structure MetaEntry where
  place_name : String
  image_path : Option String
  ordinal : ℕ
deriving DecidableEq

/-- One search result, the dict
`{"place_name": ..., "confidence": ..., "distance": ..., "metadata": ...}`
built by `ImageSearch.search`. -/
structure SearchResult where
  place_name : String
  confidence : ℚ
  distance : ℚ
  metadata : MetaEntry
deriving DecidableEq

/-- The error raised by `add_landmark`
(`ValueError: Embedding dimension mismatch ...`), and likewise the error
signalled by the FAISS index when `search` is called with a query of the
wrong dimension. -/
inductive Err
  | dimensionMismatch
deriving DecidableEq

/-- The state of an `ImageSearch` object: the FAISS index contents
(`vectors`, in insertion order, so `ntotal = vectors.length`), the
metadata list, and the persistence state (last snapshot written by
`_save_database`, and the number of save calls). -/
structure ImageSearch where
  vectors : List Vec
  metadata : List MetaEntry
  persisted : Option (List Vec × List MetaEntry)
  saves : ℕ
deriving DecidableEq

/-- Squared Euclidean distance, the metric of FAISS `IndexFlatL2`
(FAISS returns squared L2 distances). -/
def sqDist (a b : Vec) : ℚ := (List.zipWith (fun x y => (x - y) ^ 2) a b).sum

/-- Squared Euclidean norm; a unit-norm embedding has `sqNorm v = 1`. -/
def sqNorm (v : Vec) : ℚ := (v.map (fun x => x ^ 2)).sum

/-- The order in which FAISS `IndexFlatL2` ranks `(distance, ordinal)`
pairs: ascending distance, ties broken by ascending ordinal. -/
def pairLe (a b : ℚ × ℕ) : Prop := a.1 < b.1 ∨ (a.1 = b.1 ∧ a.2 ≤ b.2)

instance : DecidableRel pairLe := fun a b =>
  inferInstanceAs (Decidable (a.1 < b.1 ∨ (a.1 = b.1 ∧ a.2 ≤ b.2)))

instance : IsTotal (ℚ × ℕ) pairLe where
  total a b := by
    rcases lt_trichotomy a.1 b.1 with h | h | h
    · exact Or.inl (Or.inl h)
    · rcases Nat.le_total a.2 b.2 with h2 | h2
      · exact Or.inl (Or.inr ⟨h, h2⟩)
      · exact Or.inr (Or.inr ⟨h.symm, h2⟩)
    · exact Or.inr (Or.inl h)

instance : IsTrans (ℚ × ℕ) pairLe where
  trans a b c hab hbc := by
    rcases hab with h | ⟨he, hn⟩
    · rcases hbc with h2 | ⟨he2, _⟩
      · exact Or.inl (h.trans h2)
      · exact Or.inl (he2 ▸ h)
    · rcases hbc with h2 | ⟨he2, hn2⟩
      · exact Or.inl (he ▸ h2)
      · exact Or.inr ⟨he.trans he2, hn.trans hn2⟩

/-- The `(distance, ordinal)` pair list over which FAISS ranks: one entry
per stored vector, `(squared distance to the query, insertion ordinal)`. -/
def distPairs (s : ImageSearch) (q : Vec) : List (ℚ × ℕ) :=
  (List.range s.vectors.length).map fun i => (sqDist q (s.vectors.getD i []), i)

/-- FAISS `index.search(q, k)` result: the `k` best `(distance, ordinal)`
pairs in ranking order. -/
def faissTopK (s : ImageSearch) (q : Vec) (k : ℕ) : List (ℚ × ℕ) :=
  (List.insertionSort pairLe (distPairs s q)).take k

/-- The loop body of `ImageSearch.search`: a FAISS hit `(distance, idx)`
is kept only when `idx < len(self.metadata)` and becomes a result dict
with `confidence = max(0.0, 1.0 - distance / 2.0)`. -/
def ImageSearch.resultOf (s : ImageSearch) (di : ℚ × ℕ) :
    Option SearchResult :=
  match s.metadata.get? di.2 with
  | some md => some ⟨md.place_name, max 0 (1 - di.1 / 2), di.1, md⟩
  | none => none

/-- `ImageSearch.search(query_embedding, k)`:
returns `[]` immediately when `ntotal == 0`; otherwise asks FAISS for
`min(k, ntotal)` nearest neighbours (FAISS rejects a query of the wrong
dimension) and converts the hits via `resultOf`. -/
def ImageSearch.search (s : ImageSearch) (q : Vec) (k : ℕ) :
    Except Err (List SearchResult) :=
  if s.vectors.length = 0 then .ok []
  else if q.length ≠ dimension then .error .dimensionMismatch
  else .ok ((faissTopK s q (min k s.vectors.length)).filterMap s.resultOf)

/-- `ImageSearch._save_database()`: writes the current index and metadata. -/
def ImageSearch.save_database (s : ImageSearch) : ImageSearch :=
  { s with persisted := some (s.vectors, s.metadata), saves := s.saves + 1 }

/-- `ImageSearch.add_landmark(embedding, place_name, image_path)`:
raises `ValueError` when `embedding.shape[0] != self.dimension`; then
skips (no-op, no save) when some metadata entry already has this
`place_name`; otherwise appends the vector to the index, appends a
metadata entry with ordinal `self.index.ntotal - 1`, and saves.
The returned pair is `(raised error, state after the call)`. -/
def ImageSearch.add_landmark (s : ImageSearch) (embedding : Vec)
    (place_name : String) (image_path : Option String) :
    Option Err × ImageSearch :=
  if embedding.length ≠ dimension then (some .dimensionMismatch, s)
  else if s.metadata.any fun md => md.place_name = place_name then (none, s)
  else
    let vectors := s.vectors ++ [embedding]
    let metadata := s.metadata ++ [⟨place_name, image_path, vectors.length - 1⟩]
    (none, ImageSearch.save_database ⟨vectors, metadata, s.persisted, s.saves⟩)

/-- `ImageSearch.get_best_match(query_embedding, threshold)`:
`results = self.search(query_embedding, k=1)`; returns `results[0]` when
`results` is non-empty and `results[0]["confidence"] >= threshold`,
otherwise `None`. -/
def ImageSearch.get_best_match (s : ImageSearch) (q : Vec) (threshold : ℚ) :
    Except Err (Option SearchResult) :=
  (s.search q 1).map fun results =>
    match results with
    | r :: _ => if threshold ≤ r.confidence then some r else none
    | [] => none

/-- Python truthiness of an `Optional[float]` form field: `None` and `0.0`
are falsy, every other float is truthy. -/
def pyTruthy : Option ℚ → Bool
  | none => false
  | some v => decide (v ≠ 0)

/-- The GPS-resolution step of `recognize_landmark` (identical in
`main.py` and `backend/main.py`):
`gps = (latitude, longitude) if latitude and longitude else
extract_gps_from_bytes(img_bytes)`.
Arguments: the two form fields and the EXIF GPS that
`extract_gps_from_bytes` would return on this image.  Result: the
resolved coordinates, paired with whether the EXIF extraction was
consulted. -/
def gpsResolution (latitude longitude : Option ℚ)
    (exifGps : Option (ℚ × ℚ)) : Option (ℚ × ℚ) × Bool :=
  if pyTruthy latitude && pyTruthy longitude then
    (some (latitude.getD 0, longitude.getD 0), false)
  else (exifGps, true)

/-- A 512-dimensional unit basis vector along axis 0. -/
def e0 : Vec := 1 :: List.replicate 511 0

/-- A 512-dimensional unit basis vector along axis 1. -/
def e1 : Vec := 0 :: 1 :: List.replicate 510 0

/-- A fresh engine state: empty index, empty metadata, nothing persisted. -/
def sEmpty : ImageSearch := ⟨[], [], none, 0⟩

/-- An engine state already holding place "P" with stored vector `e1`,
far from `e0`. -/
def sFar : ImageSearch := ⟨[e1], [⟨"P", none, 0⟩], none, 0⟩

/-- An engine state already holding place "P" with stored vector `e0`. -/
def sSeed : ImageSearch := ⟨[e0], [⟨"P", none, 0⟩], none, 0⟩

/-- `l.getD i d` lies in `l` when `i < l.length`. -/
theorem getD_mem_of_lt {α : Type} (l : List α) (i : ℕ) (d : α)
    (h : i < l.length) : l.getD i d ∈ l := by
  induction l generalizing i with
  | nil => simp at h
  | cons a t ih =>
    cases i with
    | zero => simp [List.getD]
    | succ j =>
      simp only [List.getD_cons_succ]
      exact List.mem_cons_of_mem a (ih j (Nat.lt_of_succ_lt_succ h))

/-- `getD` on an append reads from the left part below its length. -/
theorem getD_append_left {α : Type} (l₁ l₂ : List α) (i : ℕ) (d : α)
    (h : i < l₁.length) : (l₁ ++ l₂).getD i d = l₁.getD i d := by
  induction l₁ generalizing i with
  | nil => simp at h
  | cons a t ih =>
    cases i with
    | zero => simp [List.getD]
    | succ j => simpa using ih j (Nat.lt_of_succ_lt_succ h)

/-- `getD` at the old length of an append of one element reads that
element. -/
theorem getD_append_length {α : Type} (l : List α) (a d : α) :
    (l ++ [a]).getD l.length d = a := by
  induction l with
  | nil => simp [List.getD]
  | cons b t ih =>
    simp only [List.cons_append, List.length_cons, List.getD_cons_succ]
    exact ih

/-- A squared Euclidean distance is never negative. -/
theorem sqDist_nonneg (a b : Vec) : 0 ≤ sqDist a b := by
  induction a generalizing b with
  | nil => simp [sqDist]
  | cons x t ih =>
    cases b with
    | nil => simp [sqDist]
    | cons y u =>
      have h1 : (0 : ℚ) ≤ (x - y) ^ 2 := sq_nonneg _
      have h2 := ih u
      simp only [sqDist, List.zipWith_cons_cons, List.sum_cons]
      simp only [sqDist] at h2
      exact add_nonneg h1 h2

/-- The squared Euclidean distance of a vector to itself is zero. -/
theorem sqDist_self (a : Vec) : sqDist a a = 0 := by
  induction a with
  | nil => simp [sqDist]
  | cons x t ih =>
    simp only [sqDist, List.zipWith_cons_cons, List.sum_cons] at ih ⊢
    simp [ih]

/-- Unfolding the squared distance over a head element. -/
theorem sqDist_cons (x y : ℚ) (a b : Vec) :
    sqDist (x :: a) (y :: b) = (x - y) ^ 2 + sqDist a b := by
  simp [sqDist]

/-- Unfolding the squared norm over a head element. -/
theorem sqNorm_cons (x : ℚ) (v : Vec) : sqNorm (x :: v) = x ^ 2 + sqNorm v := by
  simp [sqNorm]

/-- The all-zero vector has squared norm zero. -/
theorem sqNorm_zeros (n : ℕ) : sqNorm (List.replicate n (0 : ℚ)) = 0 := by
  induction n with
  | zero => simp [sqNorm]
  | succ m ih =>
    rw [List.replicate_succ, sqNorm_cons, ih]
    norm_num

/-- The basis vector `e0` has the index dimension. -/
theorem e0_length : e0.length = dimension := by
  rw [e0, List.length_cons, List.length_replicate]
  rfl

/-- The basis vector `e0` has unit norm. -/
theorem sqNorm_e0 : sqNorm e0 = 1 := by
  rw [e0, sqNorm_cons, sqNorm_zeros]
  norm_num

/-- The two distinct basis vectors are at squared distance 2, as unit
vectors at cosine similarity 0 must be. -/
theorem sqDist_e0_e1 : sqDist e0 e1 = 2 := by
  have hsplit : (List.replicate 511 (0 : ℚ)) = 0 :: List.replicate 510 0 :=
    List.replicate_succ 0 510
  rw [e0, e1, hsplit, sqDist_cons, sqDist_cons, sqDist_self]
  norm_num

/-- Case analysis on a successful `search`: either the early empty-index
return fired, or the result list is the `filterMap` over the FAISS
top-`min(k, ntotal)` hits. -/
theorem search_ok_cases (s : ImageSearch) (q : Vec) (k : ℕ)
    (rs : List SearchResult) (h : s.search q k = .ok rs) :
    rs = [] ∨
      (s.vectors.length ≠ 0 ∧ q.length = dimension ∧
        rs = (faissTopK s q (min k s.vectors.length)).filterMap s.resultOf) := by
  by_cases h0 : s.vectors.length = 0
  · left
    unfold ImageSearch.search at h
    rw [if_pos h0] at h
    injection h with h
    exact h.symm
  · by_cases hq : q.length = dimension
    · right
      refine ⟨h0, hq, ?_⟩
      unfold ImageSearch.search at h
      rw [if_neg h0, if_neg (by simp [hq])] at h
      injection h with h
      exact h.symm
    · unfold ImageSearch.search at h
      rw [if_neg h0, if_pos (by simp [hq])] at h
      cases h

/-- What `resultOf` yields: the result's distance is the hit's distance
and its confidence is `max 0 (1 - distance / 2)`. -/
theorem resultOf_spec (s : ImageSearch) (di : ℚ × ℕ) (r : SearchResult)
    (h : s.resultOf di = some r) :
    r.distance = di.1 ∧ r.confidence = max 0 (1 - di.1 / 2) := by
  unfold ImageSearch.resultOf at h
  cases hmd : s.metadata.get? di.2 with
  | none => rw [hmd] at h; cases h
  | some md =>
    rw [hmd] at h
    injection h with h
    subst h
    exact ⟨rfl, rfl⟩

/-- Every member of a successful search result list carries the squared
distance to some stored vector, and its confidence is computed from that
distance by the code's formula. -/
theorem search_result_mem (s : ImageSearch) (q : Vec) (k : ℕ)
    (rs : List SearchResult) (r : SearchResult)
    (h : s.search q k = .ok rs) (hr : r ∈ rs) :
    ∃ i, i < s.vectors.length ∧
      r.distance = sqDist q (s.vectors.getD i []) ∧
      r.confidence = max 0 (1 - r.distance / 2) := by
  rcases search_ok_cases s q k rs h with hnil | ⟨h0, hq, heq⟩
  · subst hnil
    simp at hr
  · subst heq
    rcases List.mem_filterMap.mp hr with ⟨di, hdi, hf⟩
    have hdi2 : di ∈ distPairs s q := by
      have := List.mem_of_mem_take hdi
      simpa [faissTopK] using this
    rcases List.mem_map.mp hdi2 with ⟨i, hi, hpair⟩
    have hirange : i < s.vectors.length := List.mem_range.mp hi
    rcases resultOf_spec s di r hf with ⟨hd, hc⟩
    refine ⟨i, hirange, ?_, ?_⟩
    · rw [hd, ← hpair]
    · rw [hc, hd]

/-- Transfer of pairwise relations through `filterMap`. -/
theorem pairwise_filterMap_of_rel {α β : Type} (f : α → Option β)
    (R : α → α → Prop) (S : β → β → Prop)
    (hf : ∀ a a' b b', R a a' → f a = some b → f a' = some b' → S b b')
    (l : List α) (h : l.Pairwise R) : (l.filterMap f).Pairwise S := by
  induction l with
  | nil => simp
  | cons x t ih =>
    rcases List.pairwise_cons.mp h with ⟨hx, ht⟩
    cases hfx : f x with
    | none => simpa [List.filterMap_cons, hfx] using ih ht
    | some b =>
      simp only [List.filterMap_cons, hfx]
      refine List.pairwise_cons.mpr ⟨?_, ih ht⟩
      intro b' hb'
      rcases List.mem_filterMap.mp hb' with ⟨a', ha', hfa'⟩
      exact hf x a' b b' (hx a' ha') hfx hfa'

/-- Branch lemma: a wrong-dimension add raises and leaves the state
unchanged. -/
theorem add_landmark_dim_error (s : ImageSearch) (v : Vec) (p : String)
    (ip : Option String) (h : v.length ≠ dimension) :
    s.add_landmark v p ip = (some .dimensionMismatch, s) := by
  unfold ImageSearch.add_landmark
  rw [if_pos h]

/-- Branch lemma: a duplicate-name add is skipped and leaves the state
unchanged. -/
theorem add_landmark_dup (s : ImageSearch) (v : Vec) (p : String)
    (ip : Option String) (hlen : v.length = dimension)
    (hdup : (s.metadata.any fun md => md.place_name = p) = true) :
    s.add_landmark v p ip = (none, s) := by
  unfold ImageSearch.add_landmark
  rw [if_neg (by simp [hlen]), if_pos hdup]

/-- Branch lemma: a fresh add appends the vector and a metadata entry
with ordinal `ntotal - 1` and persists the new pair. -/
theorem add_landmark_append (s : ImageSearch) (v : Vec) (p : String)
    (ip : Option String) (hlen : v.length = dimension)
    (hdup : (s.metadata.any fun md => md.place_name = p) = false) :
    s.add_landmark v p ip =
      (none,
        ⟨s.vectors ++ [v],
         s.metadata ++ [⟨p, ip, s.vectors.length⟩],
         some (s.vectors ++ [v], s.metadata ++ [⟨p, ip, s.vectors.length⟩]),
         s.saves + 1⟩) := by
  unfold ImageSearch.add_landmark
  rw [if_neg (by simp [hlen]), if_neg (by simp [hdup])]
  simp [ImageSearch.save_database]

/-- C1: the code resolves caller-supplied coordinates with the Python
truthiness test `if latitude and longitude`, so a caller-supplied pair in
which either coordinate is `0.0` is treated as absent: here the caller
supplies `(0, 77)` and the image carries EXIF GPS `(10, 20)`, and the
code consults EXIF and resolves `(10, 20)` instead of the supplied pair,
contradicting the specified precedence of explicit coordinates. -/
theorem C1_truthiness_bug :
    gpsResolution (some 0) (some 77) (some (10, 20)) = (some (10, 20), true) :=
  rfl

/-- C2, counterexample: the claim says `search` fails with
`DimensionMismatch` for every vector of length ≠ 512, but on an empty
index `search` returns `[]` before any dimension check: here a length-1
vector is searched without error. -/
theorem C2_counterexample :
    (([1] : Vec).length ≠ dimension) ∧
    ImageSearch.search sEmpty [1] 5 = .ok [] :=
  ⟨by decide, rfl⟩

/-- C2, amended: for every vector of length ≠ 512, `add_landmark` raises
`DimensionMismatch` and leaves the state unchanged, and `search` fails
with the index's dimension error when the index is non-empty but returns
the empty list without error when the index is empty (`search` never
mutates the state). -/
theorem C2_dimension_check (s : ImageSearch) (v : Vec) (p : String)
    (ip : Option String) (k : ℕ) (h : v.length ≠ dimension) :
    s.add_landmark v p ip = (some .dimensionMismatch, s) ∧
    (s.vectors ≠ [] → s.search v k = .error .dimensionMismatch) ∧
    (s.vectors = [] → s.search v k = .ok []) := by
  refine ⟨add_landmark_dim_error s v p ip h, ?_, ?_⟩
  · intro hne
    have hl : s.vectors.length ≠ 0 := by simpa [List.length_eq_zero] using hne
    simp [ImageSearch.search, h, hl]
  · intro he
    simp [ImageSearch.search, he]

/-- C2, witness: on a seeded one-entry state, both operations reject a
length-1 vector. -/
theorem C2_witness :
    ImageSearch.add_landmark sSeed [1] "Q" none = (some .dimensionMismatch, sSeed) ∧
    ImageSearch.search sSeed [1] 5 = .error .dimensionMismatch := by
  have h := C2_dimension_check sSeed [1] "Q" none 5 (by decide)
  exact ⟨h.1, h.2.1 (by simp [sSeed])⟩

/-- C3, counterexample: the claim says a second add for an existing place
name raises no error for every state and every vector, but the dimension
check runs before the dedup check: adding a length-1 vector under the
existing name "P" raises `DimensionMismatch`. -/
theorem C3_counterexample :
    (sSeed.metadata.any fun md => md.place_name = "P") = true ∧
    (sSeed.add_landmark [1] "P" none).1 = some .dimensionMismatch :=
  ⟨by decide, rfl⟩

/-- C3, amended: for every vector of the correct length 512, an add under
a place name already present in the metadata is a no-op: no error is
raised and the state (hence catalog size, index size, and the stored
vector of that place) is exactly unchanged. -/
theorem C3_dedup_noop (s : ImageSearch) (v : Vec) (p : String)
    (ip : Option String) (hlen : v.length = dimension)
    (hmem : (s.metadata.any fun md => md.place_name = p) = true) :
    s.add_landmark v p ip = (none, s) :=
  add_landmark_dup s v p ip hlen hmem

/-- C3, witness: re-adding "P" with a fresh valid vector leaves the
seeded state untouched. -/
theorem C3_witness :
    sSeed.add_landmark (List.replicate 512 (1/2)) "P" none = (none, sSeed) :=
  C3_dedup_noop sSeed (List.replicate 512 (1/2)) "P" none
    (by rw [List.length_replicate]; rfl) (by decide)

/-- C4: `get_best_match` returns the top result of `search(q, 1)` exactly
when that result exists and its confidence is at least the threshold
(the boundary confidence = threshold returns the match), and `none`
otherwise. -/
theorem C4_best_match_rule (s : ImageSearch) (q : Vec) (t : ℚ)
    (rs : List SearchResult) (h : s.search q 1 = .ok rs) :
    s.get_best_match q t =
      .ok (match rs with
        | [] => none
        | r :: _ => if t ≤ r.confidence then some r else none) := by
  cases rs with
  | nil => simp [ImageSearch.get_best_match, h, Except.map]
  | cons r tl => simp [ImageSearch.get_best_match, h, Except.map]

/-- C4, witness: on the empty state the search result list is empty and
`get_best_match` returns `none`. -/
theorem C4_witness : sEmpty.get_best_match [1] (7/10) = .ok none := by
  simpa using C4_best_match_rule sEmpty [1] (7/10) [] rfl

/-- C7: on a state with an empty index, `search` returns the empty list
without error for every vector and every `k`, and `get_best_match`
returns `none` for every threshold. -/
theorem C7_empty_index (s : ImageSearch) (q : Vec) (k : ℕ) (t : ℚ)
    (h : s.vectors = []) :
    s.search q k = .ok [] ∧ s.get_best_match q t = .ok none := by
  have hs1 : s.search q 1 = .ok [] := by simp [ImageSearch.search, h]
  exact ⟨by simp [ImageSearch.search, h],
         by simp [ImageSearch.get_best_match, hs1, Except.map]⟩

/-- C7, witness: the fresh empty state at a concrete vector, `k` and
threshold. -/
theorem C7_witness :
    sEmpty.search [1] 5 = .ok [] ∧ sEmpty.get_best_match [1] (7/10) = .ok none :=
  C7_empty_index sEmpty [1] 5 (7/10) rfl

/-- Positional identity: the catalog and the vector index have the same
size and every catalog entry stores its own position as its ordinal. -/
def PositionalId (s : ImageSearch) : Prop :=
  s.metadata.length = s.vectors.length ∧
  ∀ i, i < s.metadata.length →
    (s.metadata.getD i ⟨"", none, 0⟩).ordinal = i

/-- C9: every `add_landmark` call preserves positional identity, and the
metadata either is unchanged or gains exactly one entry whose ordinal is
the new size minus one. -/
theorem C9_positional_invariant (s : ImageSearch) (v : Vec) (p : String)
    (ip : Option String) (h : PositionalId s) :
    PositionalId (s.add_landmark v p ip).2 ∧
    ((s.add_landmark v p ip).2.metadata = s.metadata ∨
      ∃ e, (s.add_landmark v p ip).2.metadata = s.metadata ++ [e] ∧
        e.ordinal = (s.add_landmark v p ip).2.metadata.length - 1) := by
  by_cases hv : v.length = dimension
  · by_cases hdup : (s.metadata.any fun md => md.place_name = p) = true
    · rw [add_landmark_dup s v p ip hv hdup]
      exact ⟨h, Or.inl rfl⟩
    · rw [add_landmark_append s v p ip hv (by simpa using hdup)]
      have hord : ((⟨p, ip, s.vectors.length⟩ : MetaEntry)).ordinal
          = s.metadata.length := by
        simp [h.1]
      constructor
      · refine ⟨?_, ?_⟩
        · simp
          exact h.1
        · intro i hi
          simp only [List.length_append, List.length_cons, List.length_nil] at hi
          rcases Nat.lt_succ_iff_lt_or_eq.mp (by simpa using hi) with hlt | heq
          · rw [getD_append_left _ _ _ _ hlt]
            exact h.2 i hlt
          · subst heq
            rw [getD_append_length]
            exact hord
      · right
        refine ⟨_, rfl, ?_⟩
        simp [hord, h.1]
  · rw [add_landmark_dim_error s v p ip hv]
    exact ⟨h, Or.inl rfl⟩

/-- C9, witness: adding a first landmark to the fresh empty state
preserves positional identity. -/
theorem C9_witness :
    PositionalId sEmpty ∧ PositionalId ((sEmpty.add_landmark e0 "P" none).2) :=
  have h : PositionalId sEmpty := ⟨rfl, fun i hi => by simp [sEmpty] at hi⟩
  ⟨h, (C9_positional_invariant sEmpty e0 "P" none h).1⟩

/-- C10: an add call whose place name already exists in the metadata
never reaches `_save_database`: the persisted snapshot and the count of
save calls are unchanged (this holds both on the dedup-skip path and on
the dimension-error path, which also precedes any save). -/
theorem C10_duplicate_no_save (s : ImageSearch) (v : Vec) (p : String)
    (ip : Option String)
    (hmem : (s.metadata.any fun md => md.place_name = p) = true) :
    (s.add_landmark v p ip).2.persisted = s.persisted ∧
    (s.add_landmark v p ip).2.saves = s.saves := by
  by_cases hv : v.length = dimension
  · rw [add_landmark_dup s v p ip hv hmem]
    exact ⟨rfl, rfl⟩
  · rw [add_landmark_dim_error s v p ip hv]
    exact ⟨rfl, rfl⟩

/-- C10, witness: a duplicate add of "P" on the seeded state writes
nothing. -/
theorem C10_witness :
    (sSeed.add_landmark (List.replicate 512 0) "P" none).2.persisted = sSeed.persisted ∧
    (sSeed.add_landmark (List.replicate 512 0) "P" none).2.saves = sSeed.saves :=
  C10_duplicate_no_save sSeed (List.replicate 512 0) "P" none (by decide)

/-- The single result of searching the seeded state with its own stored
vector: exact distance 0 and confidence 1. -/
def r0 : SearchResult := ⟨"P", 1, 0, ⟨"P", none, 0⟩⟩

/-- Evaluation lemma: searching a one-entry index with any valid query
and `k ≥ 1` returns the single stored entry with the code's distance and
confidence. -/
theorem search_single (v : Vec) (md : MetaEntry)
    (pst : Option (List Vec × List MetaEntry)) (sv : ℕ) (q : Vec) (k : ℕ)
    (hq : q.length = dimension) (hk : 1 ≤ k) :
    ImageSearch.search ⟨[v], [md], pst, sv⟩ q k =
      .ok [⟨md.place_name, max 0 (1 - sqDist q v / 2), sqDist q v, md⟩] := by
  unfold ImageSearch.search
  rw [if_neg (by simp), if_neg (by simp [hq])]
  have hmin : min k (([v] : List Vec).length) = 1 := by
    simpa using Nat.min_eq_right hk
  rw [hmin]
  simp [faissTopK, distPairs, ImageSearch.resultOf, List.insertionSort,
    List.orderedInsert, List.range_succ]

/-- Evaluating the seeded state's search at its own stored vector. -/
theorem sSeed_search_e0 : sSeed.search e0 1 = .ok [r0] := by
  have h1 := search_single e0 ⟨"P", none, 0⟩ none 0 e0 1 e0_length le_rfl
  rw [sqDist_self] at h1
  have h2 : (1 : ℚ) - 0 / 2 = 1 := by norm_num
  rw [h2, max_eq_right zero_le_one] at h1
  exact h1

/-- The same search with a larger `k`. -/
theorem sSeed_search_e0_five : sSeed.search e0 5 = .ok [r0] := by
  have h1 := search_single e0 ⟨"P", none, 0⟩ none 0 e0 5 e0_length (by norm_num)
  rw [sqDist_self] at h1
  have h2 : (1 : ℚ) - 0 / 2 = 1 := by norm_num
  rw [h2, max_eq_right zero_le_one] at h1
  exact h1

/-- C5: every result of a successful `search` has
`confidence = clamp(1 - distance / 2, 0, 1)` where `distance` is its
squared Euclidean distance to the query, and hence every returned
confidence lies in `[0, 1]` (the code computes `max 0 (1 - d / 2)`,
which equals the clamp because squared distances are non-negative). -/
theorem C5_confidence_clamp (s : ImageSearch) (q : Vec) (k : ℕ)
    (rs : List SearchResult) (r : SearchResult)
    (h : s.search q k = .ok rs) (hr : r ∈ rs) :
    r.confidence = max 0 (min 1 (1 - r.distance / 2)) ∧
    0 ≤ r.confidence ∧ r.confidence ≤ 1 := by
  rcases search_result_mem s q k rs r h hr with ⟨i, hi, hd, hc⟩
  have hd0 : 0 ≤ r.distance := hd ▸ sqDist_nonneg q _
  have hle : 1 - r.distance / 2 ≤ 1 := by linarith
  have hmin : min 1 (1 - r.distance / 2) = 1 - r.distance / 2 :=
    min_eq_right hle
  refine ⟨by rw [hmin]; exact hc, ?_, ?_⟩
  · rw [hc]
    exact le_max_left _ _
  · rw [hc]
    exact max_le zero_le_one hle

/-- C5, witness: searching the seeded state with its own stored vector
yields one result, whose confidence is the clamp of its distance and
lies in `[0, 1]`. -/
theorem C5_witness :
    sSeed.search e0 1 = .ok [r0] ∧
    (r0.confidence = max 0 (min 1 (1 - r0.distance / 2)) ∧
      0 ≤ r0.confidence ∧ r0.confidence ≤ 1) :=
  have h : sSeed.search e0 1 = .ok [r0] := sSeed_search_e0
  ⟨h, C5_confidence_clamp sSeed e0 1 [r0] r0 h (List.mem_singleton_self r0)⟩

/-- C6: a successful `search(q, k)` returns at most `k` results, in
ascending order of distance, with non-increasing confidences. -/
theorem C6_search_bounded_sorted (s : ImageSearch) (q : Vec) (k : ℕ)
    (rs : List SearchResult) (h : s.search q k = .ok rs) :
    rs.length ≤ k ∧
    rs.Pairwise (fun a b => a.distance ≤ b.distance) ∧
    rs.Pairwise (fun a b => b.confidence ≤ a.confidence) := by
  rcases search_ok_cases s q k rs h with hnil | ⟨h0, hq, heq⟩
  · subst hnil
    exact ⟨Nat.zero_le k, List.Pairwise.nil, List.Pairwise.nil⟩
  · subst heq
    have hsorted : (List.insertionSort pairLe (distPairs s q)).Pairwise pairLe :=
      List.sorted_insertionSort pairLe (distPairs s q)
    have htake : (faissTopK s q (min k s.vectors.length)).Pairwise pairLe :=
      List.Pairwise.sublist (List.take_sublist _ _) hsorted
    have hdist : ∀ a a' b b', pairLe a a' → s.resultOf a = some b →
        s.resultOf a' = some b' → b.distance ≤ b'.distance := by
      intro a a' b b' hrel hb hb'
      rw [(resultOf_spec s a b hb).1, (resultOf_spec s a' b' hb').1]
      rcases hrel with hlt | ⟨he, _⟩
      · exact le_of_lt hlt
      · exact le_of_eq he
    have hconf : ∀ a a' b b', pairLe a a' → s.resultOf a = some b →
        s.resultOf a' = some b' → b'.confidence ≤ b.confidence := by
      intro a a' b b' hrel hb hb'
      rw [(resultOf_spec s a b hb).2, (resultOf_spec s a' b' hb').2]
      have hle : a.1 ≤ a'.1 := by
        rcases hrel with hlt | ⟨he, _⟩
        · exact le_of_lt hlt
        · exact le_of_eq he
      have : 1 - a'.1 / 2 ≤ 1 - a.1 / 2 := by linarith
      exact max_le_max (le_refl 0) this
    refine ⟨?_, ?_, ?_⟩
    · calc ((faissTopK s q (min k s.vectors.length)).filterMap s.resultOf).length
          ≤ (faissTopK s q (min k s.vectors.length)).length :=
            List.length_filterMap_le _ _
        _ ≤ min k s.vectors.length := by
            simp only [faissTopK]
            exact List.length_take_le _ _
        _ ≤ k := Nat.min_le_left _ _
    · exact pairwise_filterMap_of_rel s.resultOf pairLe _ hdist _ htake
    · exact pairwise_filterMap_of_rel s.resultOf pairLe _ hconf _ htake

/-- C6, witness: searching the seeded one-entry state with `k = 5`
returns one result, within the bound and trivially sorted. -/
theorem C6_witness :
    sSeed.search e0 5 = .ok [r0] ∧
    (([r0] : List SearchResult).length ≤ 5 ∧
      ([r0] : List SearchResult).Pairwise (fun a b => a.distance ≤ b.distance) ∧
      ([r0] : List SearchResult).Pairwise (fun a b => b.confidence ≤ a.confidence)) :=
  have h : sSeed.search e0 5 = .ok [r0] := sSeed_search_e0_five
  ⟨h, C6_search_bounded_sorted sSeed e0 5 [r0] h⟩

/-- Evaluation lemma: in a well-formed state, appending a fresh vector
that is strictly closer to the query `v` than every previously stored
vector (here: at distance 0, all others positive) makes `search v 1`
return exactly the appended entry, with distance 0 and confidence 1. -/
theorem search_after_append (vs : List Vec) (md : List MetaEntry)
    (pst : Option (List Vec × List MetaEntry)) (sv : ℕ) (v : Vec)
    (e : MetaEntry) (hwf : md.length = vs.length) (hv : v.length = dimension)
    (hpos : ∀ i, i < vs.length → 0 < sqDist v (vs.getD i [])) :
    ImageSearch.search ⟨vs ++ [v], md ++ [e], pst, sv⟩ v 1 =
      .ok [⟨e.place_name, 1, 0, e⟩] := by
  have hlen1 : (vs ++ [v]).length = vs.length + 1 := by simp
  have hchar : ∀ x ∈ distPairs ⟨vs ++ [v], md ++ [e], pst, sv⟩ v,
      x = ((0 : ℚ), vs.length) ∨ 0 < x.1 := by
    intro x hx
    simp only [distPairs] at hx
    rcases List.mem_map.mp hx with ⟨i, hi, hfx⟩
    have hi' : i < vs.length + 1 := by
      have := List.mem_range.mp hi
      simpa [hlen1] using this
    rcases Nat.lt_succ_iff_lt_or_eq.mp hi' with hlt | heq
    · right
      rw [← hfx]
      show 0 < sqDist v ((vs ++ [v]).getD i [])
      rw [getD_append_left vs [v] i [] hlt]
      exact hpos i hlt
    · left
      subst heq
      rw [← hfx]
      show (sqDist v ((vs ++ [v]).getD vs.length []), vs.length) =
        ((0 : ℚ), vs.length)
      rw [getD_append_length, sqDist_self]
  have hmem0 : ((0 : ℚ), vs.length) ∈
      distPairs ⟨vs ++ [v], md ++ [e], pst, sv⟩ v := by
    simp only [distPairs]
    refine List.mem_map.mpr ⟨vs.length, List.mem_range.mpr (by simp), ?_⟩
    show (sqDist v ((vs ++ [v]).getD vs.length []), vs.length) =
      ((0 : ℚ), vs.length)
    rw [getD_append_length, sqDist_self]
  have hres : ImageSearch.resultOf ⟨vs ++ [v], md ++ [e], pst, sv⟩
      ((0 : ℚ), vs.length) = some ⟨e.place_name, 1, 0, e⟩ := by
    have hget : (md ++ [e]).get? vs.length = some e := by
      rw [List.get?_eq_getElem?, ← hwf]
      exact List.getElem?_concat_length md e
    have hmax : max (0 : ℚ) (1 - 0 / 2) = 1 := by
      rw [zero_div, sub_zero]
      exact max_eq_right zero_le_one
    simp only [ImageSearch.resultOf, hget]
    rw [hmax]
  have htop : faissTopK ⟨vs ++ [v], md ++ [e], pst, sv⟩ v 1 =
      [((0 : ℚ), vs.length)] := by
    unfold faissTopK
    cases hS : List.insertionSort pairLe
        (distPairs ⟨vs ++ [v], md ++ [e], pst, sv⟩ v) with
    | nil =>
      exfalso
      have hmem := (List.mem_insertionSort (r := pairLe)).mpr hmem0
      rw [hS] at hmem
      simp at hmem
    | cons hd tl =>
      have hsorted := List.sorted_insertionSort pairLe
        (distPairs ⟨vs ++ [v], md ++ [e], pst, sv⟩ v)
      rw [hS] at hsorted
      have hhead : ∀ y ∈ tl, pairLe hd y := (List.pairwise_cons.mp hsorted).1
      have hhd_mem : hd ∈ distPairs ⟨vs ++ [v], md ++ [e], pst, sv⟩ v := by
        have hmem : hd ∈ List.insertionSort pairLe
            (distPairs ⟨vs ++ [v], md ++ [e], pst, sv⟩ v) := by
          rw [hS]
          exact List.mem_cons_self hd tl
        exact (List.mem_insertionSort (r := pairLe)).mp hmem
      have h0mem : ((0 : ℚ), vs.length) ∈ hd :: tl := by
        rw [← hS]
        exact (List.mem_insertionSort (r := pairLe)).mpr hmem0
      have hhd : hd = ((0 : ℚ), vs.length) := by
        rcases hchar hd hhd_mem with h | hpos1
        · exact h
        · rcases List.mem_cons.mp h0mem with heq | hmem'
          · exact heq.symm
          · rcases hhead _ hmem' with hlt | ⟨heq0, _⟩
            · exact absurd hlt (by simp only; linarith)
            · exact absurd heq0 (by simp only; linarith)
      rw [hhd]
      rfl
  unfold ImageSearch.search
  rw [if_neg (by simp), if_neg (by simp [hv])]
  show Except.ok ((faissTopK ⟨vs ++ [v], md ++ [e], pst, sv⟩ v
      (min 1 (vs ++ [v]).length)).filterMap
        (ImageSearch.resultOf ⟨vs ++ [v], md ++ [e], pst, sv⟩)) =
    Except.ok [⟨e.place_name, 1, 0, e⟩]
  have hmin : min 1 (vs ++ [v]).length = 1 := by
    rw [hlen1]
    exact Nat.min_eq_left (Nat.succ_le_succ (Nat.zero_le _))
  rw [hmin, htop]
  simp [List.filterMap_cons, hres]

/-- C8, counterexample: the claim quantifies over every valid unit-norm
embedding and place name without restricting the starting state; from
the state `sFar` that already stores "P" with vector `e1` orthogonal to
`e0`, the add of `e0` under "P" is a dedup no-op, and the following
`search(e0, 1)` returns confidence 0 and distance 2 — not confidence ≈ 1
and distance ≈ 0 as claimed. -/
theorem C8_counterexample :
    e0.length = dimension ∧ sqNorm e0 = 1 ∧
    (sFar.add_landmark e0 "P" none).1 = none ∧
    ((sFar.add_landmark e0 "P" none).2).search e0 1 =
      .ok [⟨"P", 0, 2, ⟨"P", none, 0⟩⟩] := by
  have hdup : (sFar.metadata.any fun m => m.place_name = "P") = true := by
    decide
  have hadd : sFar.add_landmark e0 "P" none = (none, sFar) :=
    add_landmark_dup sFar e0 "P" none e0_length hdup
  refine ⟨e0_length, sqNorm_e0, by rw [hadd], ?_⟩
  rw [hadd]
  have h1 := search_single e1 ⟨"P", none, 0⟩ none 0 e0 1 e0_length le_rfl
  rw [sqDist_e0_e1] at h1
  have hmax : max (0 : ℚ) (1 - 2 / 2) = 0 := by norm_num
  rw [hmax] at h1
  exact h1

/-- C8, amended: for every valid embedding `v` (length 512, unit norm)
and place name `p`, starting from a well-formed state (catalog and index
of equal length) in which `p` is not yet present and every stored vector
is at strictly positive squared distance from `v`, `add_landmark` raises
no error and a subsequent `search(v, 1)` returns the single result
`(p, confidence 1, distance 0)`. -/
theorem C8_fresh_unique_nearest (s : ImageSearch) (v : Vec) (p : String)
    (ip : Option String) (hwf : s.metadata.length = s.vectors.length)
    (hv : v.length = dimension) ( _hnorm : sqNorm v = 1)
    (hfresh : (s.metadata.any fun md => md.place_name = p) = false)
    (hpos : ∀ i, i < s.vectors.length → 0 < sqDist v (s.vectors.getD i [])) :
    (s.add_landmark v p ip).1 = none ∧
    ((s.add_landmark v p ip).2).search v 1 =
      .ok [⟨p, 1, 0, ⟨p, ip, s.vectors.length⟩⟩] := by
  rw [add_landmark_append s v p ip hv hfresh]
  exact ⟨rfl, search_after_append s.vectors s.metadata _ _ v
    ⟨p, ip, s.vectors.length⟩ hwf hv hpos⟩

/-- C8, witness: adding `e0` under a fresh name to the empty state and
searching for it returns that entry with confidence exactly 1 and
distance exactly 0. -/
theorem C8_witness :
    (sEmpty.add_landmark e0 "P" none).1 = none ∧
    ((sEmpty.add_landmark e0 "P" none).2).search e0 1 =
      .ok [⟨"P", 1, 0, ⟨"P", none, 0⟩⟩] :=
  C8_fresh_unique_nearest sEmpty e0 "P" none rfl e0_length sqNorm_e0 rfl
    (fun i hi => absurd hi (by simp [sEmpty]))

end GeoGenie
